import Mathlib

/-!
Shallow embedding of the rison-rs decoding engine.

Bytes are modelled as `Nat` (values below 256 in any real input).  The
byte-source layer comes from src/de/read.rs (the variant carrying error
codes and positions): `SliceRead` over an in-memory slice and `IoRead`
over an incremental stream.  The incremental stream is modelled as the
list of not-yet-consumed bytes (the one-byte lookahead cell of the
source is flattened into the head of that list, which is observationally
identical), together with the running position counter.  The value
dispatcher, container accessors and top-level entry points come from
src/de.rs; its error values are built as `Error {}` without any code or
position, which the embedding renders as the single constructor
`DErr.err`.  The `todo!()` bodies in src/de.rs are panics, rendered as
the distinct outcome `DErr.todoPanic`.  The mutually recursive
dispatcher is given an explicit recursion budget (`fuel`); exhausting it
yields `DErr.fuelOut`, an artifact of the embedding and not a behaviour
of the program.
-/

/-- Identifier-terminator set, NOT_ID_CHARS in src/de/read.rs: space,
quote, bang, colon, parens, comma, star, at, dollar. -/
def NOT_ID_CHARS : List Nat := [32, 39, 33, 58, 40, 41, 44, 42, 64, 36]

/-- Error codes of src/error.rs (`Code`).  The payload of the stream
code is dropped and `Message` keeps its text. -/
inductive Code where
  | Message (msg : String)
  | ioStream
  | EofValue
  | EofList
  | EofObject
  | EofString
  | EofMarker
  | ExpectedColon
  | ExpectedListSepOrEnd
  | ExpectedObjectSepOrEnd
  | InvalidMarker
  | InvalidEscape
  | InvalidNumber
  | InvalidUnicode
  | TrailingChars
deriving DecidableEq

/-- Error of src/error.rs: a code plus an optional byte position. -/
structure RError where
  code : Code
  position : Option Nat
deriving DecidableEq

/-- The `custom` constructor of the serde error impl in src/error.rs:
a Message code and no position. -/
def customError (msg : String) : RError := ⟨Code.Message msg, none⟩

/-- String result of src/de/read.rs (`Reference`): borrowed from the
input or copied out of the scratch buffer. -/
inductive Ref where
  | borrowed (bs : List Nat)
  | copied (bs : List Nat)
deriving DecidableEq

/-- Byte content of a string result, ignoring the borrow tag. -/
def Ref.bytes : Ref → List Nat
  | .borrowed bs => bs
  | .copied bs => bs

/-- UTF-8 validation in the style of the standard from_utf8: `none` for
valid input, otherwise `some k` where `k` is the length of the longest
valid prefix (valid_up_to). -/
def utf8ValidUpTo (l : List Nat) : Option Nat :=
  go l 0
where
  isCont (b : Nat) : Bool := 128 ≤ b && b ≤ 191
  go : List Nat → Nat → Option Nat
  | [], _ => none
  | b :: rest, k =>
    if b ≤ 127 then go rest (k + 1)
    else if 194 ≤ b && b ≤ 223 then
      match rest with
      | b1 :: rest1 => if isCont b1 then go rest1 (k + 2) else some k
      | [] => some k
    else if 224 ≤ b && b ≤ 239 then
      match rest with
      | b1 :: b2 :: rest2 =>
        let lo1 : Nat := if b = 224 then 160 else 128
        let hi1 : Nat := if b = 237 then 159 else 191
        if (lo1 ≤ b1 && b1 ≤ hi1) && isCont b2 then go rest2 (k + 3) else some k
      | _ => some k
    else if 240 ≤ b && b ≤ 244 then
      match rest with
      | b1 :: b2 :: b3 :: rest3 =>
        let lo1 : Nat := if b = 240 then 144 else 128
        let hi1 : Nat := if b = 244 then 143 else 191
        if ((lo1 ≤ b1 && b1 ≤ hi1) && isCont b2) && isCont b3 then go rest3 (k + 4)
        else some k
      | _ => some k
    else some k

/-- Byte-slice source of src/de/read.rs: the input slice and the index
of the next unconsumed byte. -/
structure SliceRead where
  slice : List Nat
  index : Nat
deriving DecidableEq

/-- Slice sub-range access, slice[start..stop] in the source. -/
def extractL (slice : List Nat) (start stop : Nat) : List Nat :=
  (slice.drop start).take (stop - start)

/-- SliceRead::peek: the byte at the current index, if any. -/
def SliceRead.peek (s : SliceRead) : Option Nat :=
  s.slice.get? s.index

/-- SliceRead::discard: advance the index by one. -/
def SliceRead.discard (s : SliceRead) : SliceRead :=
  { s with index := s.index + 1 }

/-- Read::next: peek, and discard when a byte was there. -/
def SliceRead.next (s : SliceRead) : Option Nat × SliceRead :=
  match s.peek with
  | some b => (some b, s.discard)
  | none => (none, s)

/-- Loop body of SliceRead::parse_str_bytes in src/de/read.rs.  The
list argument is the not-yet-scanned tail slice[idx..]; `idx` mirrors
self.index, `start` the start cursor of the current unescaped span and
`scratch` the scratch buffer.  Returns the string bytes together with
the index just past the closing quote. -/
def SliceRead.parse_str_bytes_go (slice : List Nat) :
    List Nat → Nat → Nat → List Nat → Except RError (Ref × Nat)
  | [], idx, _start, _scratch => .error ⟨Code.EofString, some idx⟩
  | b :: rest1, idx, start, scratch =>
    if b = 39 then
      if scratch = [] then
        .ok (Ref.borrowed (extractL slice start idx), idx + 1)
      else
        .ok (Ref.copied (scratch ++ extractL slice start idx), idx + 1)
    else if b = 33 then
      match rest1 with
      | [] => .error ⟨Code.EofString, some (idx + 1)⟩
      | c :: rest2 =>
        if c = 33 ∨ c = 39 then
          SliceRead.parse_str_bytes_go slice rest2 (idx + 2) (idx + 2)
            (scratch ++ extractL slice start idx ++ [c])
        else .error ⟨Code.InvalidEscape, some (idx + 2)⟩
    else
      SliceRead.parse_str_bytes_go slice rest1 (idx + 1) start scratch

/-- SliceRead::parse_str_bytes: scan from the current index with the
given scratch buffer. -/
def SliceRead.parse_str_bytes (s : SliceRead) (scratch : List Nat) :
    Except RError (Ref × Nat) :=
  SliceRead.parse_str_bytes_go s.slice (s.slice.drop s.index) s.index s.index scratch

/-- SliceRead::parse_str: parse_str_bytes followed by UTF-8 validation
of the resulting bytes, reporting InvalidUnicode at the scan start plus
valid_up_to on failure. -/
def SliceRead.parse_str (s : SliceRead) (scratch : List Nat) :
    Except RError (Ref × SliceRead) :=
  match s.parse_str_bytes scratch with
  | .error e => .error e
  | .ok (r, stop) =>
    match utf8ValidUpTo r.bytes with
    | some k => .error ⟨Code.InvalidUnicode, some (s.index + k)⟩
    | none => .ok (r, { s with index := stop })

/-- Loop body of SliceRead::parse_ident_bytes: scan bytes outside
NOT_ID_CHARS, returning them and the index where scanning stopped. -/
def SliceRead.parse_ident_go : List Nat → Nat → List Nat × Nat
  | [], idx => ([], idx)
  | b :: rest, idx =>
    if NOT_ID_CHARS.contains b then ([], idx)
    else
      let (tl, stop) := SliceRead.parse_ident_go rest (idx + 1)
      (b :: tl, stop)

/-- SliceRead::parse_ident_bytes: always succeeds, end of input simply
terminates the scan. -/
def SliceRead.parse_ident_bytes (s : SliceRead) : Except RError (List Nat × Nat) :=
  .ok (SliceRead.parse_ident_go (s.slice.drop s.index) s.index)

/-- SliceRead::parse_ident: parse_ident_bytes plus UTF-8 validation;
the result is tagged Copied as in the source. -/
def SliceRead.parse_ident (s : SliceRead) : Except RError (Ref × SliceRead) :=
  match s.parse_ident_bytes with
  | .error e => .error e
  | .ok (bs, stop) =>
    match utf8ValidUpTo bs with
    | some k => .error ⟨Code.InvalidUnicode, some (s.index + k)⟩
    | none => .ok (Ref.copied bs, { s with index := stop })

/-- Streaming source of src/de/read.rs (`IoRead`).  `rest` is the byte
stream still to be delivered, with the one-byte lookahead cell flattened
into its head; `pos` is the position counter incremented on each
consumed byte.  The underlying reader is modelled as infallible, so the
stream error code never arises. -/
structure IoRead where
  rest : List Nat
  pos : Nat
deriving DecidableEq

/-- IoRead::peek: the next stream byte without consuming it. -/
def IoRead.peek (s : IoRead) : Option Nat :=
  s.rest.head?

/-- IoRead::discard: drop the peeked byte and advance the counter. -/
def IoRead.discard (s : IoRead) : IoRead :=
  ⟨s.rest.tail, s.pos + 1⟩

/-- Closing step of IoRead::parse_str: after the closing quote is
discarded, validate the scratch buffer as UTF-8, reporting
InvalidUnicode at the entry position plus valid_up_to. -/
def io_finish_str (startPos : Nat) (scratch tl : List Nat) (pos : Nat) :
    Except RError (List Nat × IoRead) :=
  match utf8ValidUpTo scratch with
  | some k => .error ⟨Code.InvalidUnicode, some (startPos + k)⟩
  | none => .ok (scratch, ⟨tl, pos + 1⟩)

/-- Loop of IoRead::parse_str, recursing over the unconsumed stream.
`startPos` is the position captured on entry, used for the
InvalidUnicode offset.  Note the source labels a bad string escape
InvalidMarker here, unlike the slice source. -/
def IoRead.parse_str_go (startPos : Nat) :
    List Nat → Nat → List Nat → Except RError (List Nat × IoRead)
  | [], pos, _scratch => .error ⟨Code.EofString, some pos⟩
  | b :: rest1, pos, scratch =>
    if b = 39 then io_finish_str startPos scratch rest1 pos
    else if b = 33 then
      match rest1 with
      | [] => .error ⟨Code.EofString, some (pos + 1)⟩
      | c :: rest2 =>
        if c = 33 ∨ c = 39 then
          IoRead.parse_str_go startPos rest2 (pos + 2) (scratch ++ [c])
        else .error ⟨Code.InvalidMarker, some (pos + 2)⟩
    else
      IoRead.parse_str_go startPos rest1 (pos + 1) (scratch ++ [b])

/-- IoRead::parse_str on a source state and scratch buffer. -/
def IoRead.parse_str (s : IoRead) (scratch : List Nat) :
    Except RError (List Nat × IoRead) :=
  IoRead.parse_str_go s.pos s.rest s.pos scratch

/-- Loop of IoRead::parse_ident: push bytes outside NOT_ID_CHARS into
scratch, stopping at a terminator or end of stream. -/
def IoRead.parse_ident_go : List Nat → Nat → List Nat → List Nat × IoRead
  | [], pos, scratch => (scratch, ⟨[], pos⟩)
  | b :: rest1, pos, scratch =>
    if NOT_ID_CHARS.contains b then (scratch, ⟨b :: rest1, pos⟩)
    else IoRead.parse_ident_go rest1 (pos + 1) (scratch ++ [b])

/-- IoRead::parse_ident: the scan followed by UTF-8 validation of the
scratch buffer. -/
def IoRead.parse_ident (s : IoRead) (scratch : List Nat) :
    Except RError (List Nat × IoRead) :=
  let (bs, s1) := IoRead.parse_ident_go s.rest s.pos scratch
  match utf8ValidUpTo bs with
  | some k => .error ⟨Code.InvalidUnicode, some (s.pos + k)⟩
  | none => .ok (bs, s1)

/-- Generic tree value built by the self-describing decode (the role
serde_json::Value plays in the tests of src/de.rs).  Strings hold their
byte content. -/
inductive Value where
  | null
  | bool (b : Bool)
  | str (bs : List Nat)
  | arr (xs : List Value)
  | obj (entries : List (List Nat × Value))

/-- Failure of the dispatcher in src/de.rs.  `err` is the bare
`Error {}` value the file constructs, which carries no code and no
position; `rerr` wraps an error propagated from the byte source;
`todoPanic` renders a `todo!()` panic; `fuelOut` is the embedding
artifact for an exhausted recursion budget. -/
inductive DErr where
  | err
  | rerr (e : RError)
  | todoPanic
  | fuelOut
deriving DecidableEq

/-- First byte of a numeric literal: minus or a decimal digit. -/
def isNumStart (b : Nat) : Bool :=
  b = 45 || (48 ≤ b && b ≤ 57)

/-- deserialize_str of src/de.rs (also the path taken for map keys):
bang is rejected, a quote starts a quoted string, a digit or minus hits
the unimplemented number path, and anything else is a bare
identifier. -/
def deserialize_str (s : SliceRead) : Except DErr (List Nat × SliceRead) :=
  match s.peek with
  | none => .error DErr.err
  | some b =>
    if b = 33 then .error DErr.err
    else if b = 39 then
      match SliceRead.parse_str s.discard [] with
      | .error e => .error (DErr.rerr e)
      | .ok (r, s2) => .ok (r.bytes, s2)
    else if isNumStart b then .error DErr.todoPanic
    else
      match SliceRead.parse_ident s with
      | .error e => .error (DErr.rerr e)
      | .ok (r, s2) => .ok (r.bytes, s2)

/-- deserialize_bool of src/de.rs: a bang followed (via next) by t or f;
everything else is the bare dispatcher error. -/
def deserialize_bool (s : SliceRead) : Except DErr (Bool × SliceRead) :=
  match s.peek with
  | none => .error DErr.err
  | some b =>
    if b = 33 then
      match SliceRead.next s.discard with
      | (none, _) => .error DErr.err
      | (some c, s2) =>
        if c = 116 then .ok (true, s2)
        else if c = 102 then .ok (false, s2)
        else .error DErr.err
    else .error DErr.err

/-- MapAccess::next_key_seed of src/de.rs, with the key deserialized
through the string path (the seed used for tree-value keys): same
first/separator/terminator logic as the sequence accessor. -/
def next_key_seed (s : SliceRead) (first : Bool) :
    Except DErr (Option (List Nat) × SliceRead) :=
  match s.peek with
  | none => .error DErr.err
  | some b =>
    if b = 41 then .ok (none, s)
    else if b = 44 ∧ first = false then
      let s1 := s.discard
      match s1.peek with
      | none => .error DErr.err
      | some _ =>
        match deserialize_str s1 with
        | .error e => .error e
        | .ok (k, s2) => .ok (some k, s2)
    else if first then
      match deserialize_str s with
      | .error e => .error e
      | .ok (k, s2) => .ok (some k, s2)
    else .error DErr.err

mutual

/-- deserialize_any of src/de.rs for the generic tree value: dispatch
on the next unconsumed byte.  The numeric branch is `todo!()` in the
source.  After a container body, a failure of the body and a missing
closing paren both collapse into the bare `Error {}` (panic and the
fuel artifact excepted, which propagate). -/
def deserialize_any : Nat → SliceRead → Except DErr (Value × SliceRead)
  | 0, _ => .error DErr.fuelOut
  | fuel + 1, s =>
    match s.peek with
    | none => .error DErr.err
    | some b =>
      if b = 33 then
        let s1 := s.discard
        match s1.peek with
        | none => .error DErr.err
        | some c =>
          if c = 110 then .ok (Value.null, s1.discard)
          else if c = 116 then .ok (Value.bool true, s1.discard)
          else if c = 102 then .ok (Value.bool false, s1.discard)
          else if c = 40 then
            match seq_elements fuel s1.discard true [] with
            | .error DErr.todoPanic => .error DErr.todoPanic
            | .error DErr.fuelOut => .error DErr.fuelOut
            | .error _ => .error DErr.err
            | .ok (xs, s3) =>
              match s3.peek with
              | some d => if d = 41 then .ok (Value.arr xs, s3.discard) else .error DErr.err
              | none => .error DErr.err
          else .error DErr.err
      else if isNumStart b then .error DErr.todoPanic
      else if b = 39 then
        match SliceRead.parse_str s.discard [] with
        | .error e => .error (DErr.rerr e)
        | .ok (r, s2) => .ok (Value.str r.bytes, s2)
      else if b = 40 then
        match map_entries fuel s.discard true [] with
        | .error DErr.todoPanic => .error DErr.todoPanic
        | .error DErr.fuelOut => .error DErr.fuelOut
        | .error _ => .error DErr.err
        | .ok (es, s3) =>
          match s3.peek with
          | some d => if d = 41 then .ok (Value.obj es, s3.discard) else .error DErr.err
          | none => .error DErr.err
      else
        match SliceRead.parse_ident s with
        | .error e => .error (DErr.rerr e)
        | .ok (r, s2) => .ok (Value.str r.bytes, s2)

/-- SeqAccess::next_element_seed of src/de.rs: close paren ends the
stream; a comma is a separator only after the first element and must be
followed by another byte; any byte is the start of a value when this is
the first element; otherwise the bare error. -/
def next_element_seed : Nat → SliceRead → Bool → Except DErr (Option Value × SliceRead)
  | 0, _, _ => .error DErr.fuelOut
  | fuel + 1, s, first =>
    match s.peek with
    | none => .error DErr.err
    | some b =>
      if b = 41 then .ok (none, s)
      else if b = 44 ∧ first = false then
        let s1 := s.discard
        match s1.peek with
        | none => .error DErr.err
        | some _ =>
          match deserialize_any fuel s1 with
          | .error e => .error e
          | .ok (v, s2) => .ok (some v, s2)
      else if first then
        match deserialize_any fuel s with
        | .error e => .error e
        | .ok (v, s2) => .ok (some v, s2)
      else .error DErr.err

/-- The element loop the tree-value visitor runs against SeqAccess:
request elements until none remains. -/
def seq_elements : Nat → SliceRead → Bool → List Value → Except DErr (List Value × SliceRead)
  | 0, _, _, _ => .error DErr.fuelOut
  | fuel + 1, s, first, acc =>
    match next_element_seed fuel s first with
    | .error e => .error e
    | .ok (none, s1) => .ok (acc.reverse, s1)
    | .ok (some v, s1) => seq_elements fuel s1 false (v :: acc)

/-- MapAccess::next_value_seed of src/de.rs: require and consume a
colon, then parse the value. -/
def next_value_seed : Nat → SliceRead → Except DErr (Value × SliceRead)
  | 0, _ => .error DErr.fuelOut
  | fuel + 1, s =>
    match s.peek with
    | none => .error DErr.err
    | some b =>
      if b = 58 then deserialize_any fuel s.discard
      else .error DErr.err

/-- The entry loop the tree-value visitor runs against MapAccess: keys
via the string path, each followed by next_value_seed. -/
def map_entries : Nat → SliceRead → Bool → List (List Nat × Value) →
    Except DErr (List (List Nat × Value) × SliceRead)
  | 0, _, _, _ => .error DErr.fuelOut
  | fuel + 1, s, first, acc =>
    match next_key_seed s first with
    | .error e => .error e
    | .ok (none, s1) => .ok (acc.reverse, s1)
    | .ok (some k, s1) =>
      match next_value_seed fuel s1 with
      | .error e => .error e
      | .ok (v, s2) => map_entries fuel s2 false ((k, v) :: acc)

end

/-- deserialize_option of src/de.rs: a bang commits to the no-value
marker and the following byte must then be n (via next); any other
first byte, or an empty input, delegates to standard value
construction wrapped in some. -/
def deserialize_option (fuel : Nat) (s : SliceRead) :
    Except DErr (Option Value × SliceRead) :=
  match s.peek with
  | some b =>
    if b = 33 then
      match SliceRead.next s.discard with
      | (some c, s2) => if c = 110 then .ok (none, s2) else .error DErr.err
      | (none, _) => .error DErr.err
    else Except.map (fun vs => (some vs.1, vs.2)) (deserialize_any fuel s)
  | none => Except.map (fun vs => (some vs.1, vs.2)) (deserialize_any fuel s)

/-- Deserializer::end of src/de.rs: any remaining byte is the bare
error, an exhausted input succeeds. -/
def de_end (s : SliceRead) : Except DErr Unit :=
  match s.peek with
  | some _ => .error DErr.err
  | none => .ok ()

/-- from_trait specialised to the tree value over a byte slice: decode
one value, then require end of input. -/
def from_slice_value (fuel : Nat) (l : List Nat) : Except DErr Value :=
  match deserialize_any fuel ⟨l, 0⟩ with
  | .error e => .error e
  | .ok (v, s) =>
    match de_end s with
    | .error e => .error e
    | .ok _ => .ok v

/-- from_trait specialised to a boolean target over a byte slice. -/
def from_slice_bool (l : List Nat) : Except DErr Bool :=
  match deserialize_bool ⟨l, 0⟩ with
  | .error e => .error e
  | .ok (v, s) =>
    match de_end s with
    | .error e => .error e
    | .ok _ => .ok v

/-! ## Helper lemmas -/

/-- The identifier scan loop computes the longest run of bytes outside
NOT_ID_CHARS, stopping index included. -/
lemma parse_ident_go_eq (rest : List Nat) :
    ∀ idx, SliceRead.parse_ident_go rest idx =
      (rest.takeWhile (fun b => !(NOT_ID_CHARS.contains b)),
       idx + (rest.takeWhile (fun b => !(NOT_ID_CHARS.contains b))).length) := by
  induction rest with
  | nil => intro idx; simp [SliceRead.parse_ident_go]
  | cons b rest ih =>
    intro idx
    by_cases hb : b ∈ NOT_ID_CHARS
    · simp [SliceRead.parse_ident_go, hb, List.takeWhile_cons]
    · simp only [SliceRead.parse_ident_go, List.takeWhile_cons, ih (idx + 1)]
      simp [hb]
      omega

lemma extractL_self (slice : List Nat) (start : Nat) :
    extractL slice start start = [] := by
  simp [extractL]

lemma get?_of_drop_cons {slice rest : List Nat} {idx b : Nat}
    (h : slice.drop idx = b :: rest) : slice.get? idx = some b := by
  rw [List.get?_eq_getElem?]
  have h0 : (slice.drop idx)[0]? = slice[idx + 0]? := List.getElem?_drop slice idx 0
  rw [h] at h0
  simpa using h0.symm

lemma drop_succ_of_drop_cons {slice rest : List Nat} {idx b : Nat}
    (h : slice.drop idx = b :: rest) : slice.drop (idx + 1) = rest := by
  have h1 : (slice.drop idx).drop 1 = slice.drop (idx + 1) := by
    rw [List.drop_drop]
  rw [h] at h1
  simpa using h1.symm

lemma extractL_succ {slice : List Nat} {idx b : Nat} (start : Nat)
    (hle : start ≤ idx) (hb : slice.get? idx = some b) :
    extractL slice start (idx + 1) = extractL slice start idx ++ [b] := by
  unfold extractL
  have hstep : idx + 1 - start = (idx - start) + 1 := by omega
  rw [hstep, List.take_succ]
  have hget : (slice.drop start)[idx - start]? = slice[start + (idx - start)]? :=
    List.getElem?_drop slice start (idx - start)
  have hidx : start + (idx - start) = idx := by omega
  rw [hidx] at hget
  rw [List.get?_eq_getElem?] at hb
  rw [hget, hb]
  rfl

/-- View of a low-level string scan outcome retaining the error code,
the decoded bytes and the stop index, forgetting the borrow tag and the
error position. -/
def str_scan_view : Except RError (Ref × Nat) → Except Code (List Nat × Nat)
  | .error e => .error e.code
  | .ok (r, stop) => .ok (r.bytes, stop)

/-- Transcription of the claim about quoted-string scanning: scanning
stops at the first unescaped quote, which is consumed; a bang followed
by a bang or a quote contributes that literal byte; a bang followed by
anything else is InvalidEscape; every other byte contributes itself;
end of input before the closing quote is EofString.  Returns the
decoded bytes and the number of input bytes consumed. -/
def quoted_string_claim : List Nat → Except Code (List Nat × Nat)
  | [] => .error Code.EofString
  | b :: rest1 =>
    if b = 39 then .ok ([], 1)
    else if b = 33 then
      match rest1 with
      | [] => .error Code.EofString
      | c :: rest2 =>
        if c = 33 ∨ c = 39 then
          match quoted_string_claim rest2 with
          | .ok (content, used) => .ok (c :: content, used + 2)
          | .error e => .error e
        else .error Code.InvalidEscape
    else
      match quoted_string_claim rest1 with
      | .ok (content, used) => .ok (b :: content, used + 1)
      | .error e => .error e

/-- The slice-source scan loop agrees with the claim transcription,
generalized over the cursor arguments. -/
lemma parse_str_go_spec :
    ∀ (n : Nat) (rest : List Nat), rest.length ≤ n →
    ∀ (slice : List Nat) (idx start : Nat) (scratch : List Nat),
      slice.drop idx = rest → start ≤ idx →
      str_scan_view (SliceRead.parse_str_bytes_go slice rest idx start scratch) =
        (match quoted_string_claim rest with
         | .ok (content, used) =>
             .ok (scratch ++ extractL slice start idx ++ content, idx + used)
         | .error e => .error e) := by
  intro n
  induction n with
  | zero =>
    intro rest hlen slice idx start scratch hdrop hle
    have hnil : rest = [] := List.eq_nil_of_length_eq_zero (Nat.le_zero.mp hlen)
    subst hnil
    simp [SliceRead.parse_str_bytes_go.eq_def, quoted_string_claim, str_scan_view]
  | succ n ih =>
    intro rest hlen slice idx start scratch hdrop hle
    match rest with
    | [] =>
      simp [SliceRead.parse_str_bytes_go.eq_def, quoted_string_claim, str_scan_view]
    | b :: rest1 =>
      have hb : slice.get? idx = some b := get?_of_drop_cons hdrop
      have hdrop1 : slice.drop (idx + 1) = rest1 := drop_succ_of_drop_cons hdrop
      by_cases hb39 : b = 39
      · subst hb39
        by_cases hscr : scratch = []
        · subst hscr
          simp [SliceRead.parse_str_bytes_go.eq_def, quoted_string_claim.eq_def,
            str_scan_view, Ref.bytes]
        · simp [SliceRead.parse_str_bytes_go.eq_def, quoted_string_claim.eq_def,
            str_scan_view, Ref.bytes, hscr]
      · by_cases hb33 : b = 33
        · subst hb33
          match rest1 with
          | [] =>
            simp [SliceRead.parse_str_bytes_go.eq_def, quoted_string_claim,
              str_scan_view, hb39]
          | c :: rest2 =>
            have hc2 : slice.drop (idx + 2) = rest2 := by
              have := drop_succ_of_drop_cons hdrop1
              simpa [Nat.add_assoc] using this
            by_cases hc : c = 33 ∨ c = 39
            · have hlen2 : rest2.length ≤ n := by
                simp at hlen; omega
              have hrec := ih rest2 hlen2 slice (idx + 2) (idx + 2)
                (scratch ++ extractL slice start idx ++ [c]) hc2 (Nat.le_refl _)
              rw [SliceRead.parse_str_bytes_go.eq_def]
              simp only [hb39, if_false, if_pos rfl, hc, if_true]
              rw [hrec]
              have hclaim : quoted_string_claim (33 :: c :: rest2) =
                  (match quoted_string_claim rest2 with
                   | .ok (content, used) => .ok (c :: content, used + 2)
                   | .error e => .error e) := by
                simp [quoted_string_claim, hc]
              rw [hclaim]
              cases hq : quoted_string_claim rest2 with
              | error e => rfl
              | ok p =>
                obtain ⟨content, used⟩ := p
                simp [extractL_self]
                omega
            · simp [SliceRead.parse_str_bytes_go.eq_def, quoted_string_claim,
                str_scan_view, hb39, hc]
        · have hrec := ih rest1 (by simp at hlen; omega) slice (idx + 1) start scratch
            hdrop1 (Nat.le_trans hle (Nat.le_succ idx))
          rw [SliceRead.parse_str_bytes_go.eq_def]
          simp only [hb39, hb33, if_false]
          rw [hrec]
          have hclaim : quoted_string_claim (b :: rest1) =
              (match quoted_string_claim rest1 with
               | .ok (content, used) => .ok (b :: content, used + 1)
               | .error e => .error e) := by
            rw [quoted_string_claim.eq_def]
            simp only [hb39, hb33, if_false]
          rw [hclaim]
          cases hq : quoted_string_claim rest1 with
          | error e => rfl
          | ok p =>
            obtain ⟨content, used⟩ := p
            rw [extractL_succ start hle hb]
            simp
            omega

/-- Every error the slice-source string scan loop constructs carries a
position. -/
lemma parse_str_go_pos :
    ∀ (n : Nat) (rest : List Nat), rest.length ≤ n →
    ∀ (slice : List Nat) (idx start : Nat) (scratch : List Nat) (e : RError),
      SliceRead.parse_str_bytes_go slice rest idx start scratch = .error e →
      e.position.isSome := by
  intro n
  induction n with
  | zero =>
    intro rest hlen slice idx start scratch e h
    have hnil : rest = [] := List.eq_nil_of_length_eq_zero (Nat.le_zero.mp hlen)
    subst hnil
    rw [SliceRead.parse_str_bytes_go.eq_def] at h
    simp at h
    simp [← h]
  | succ n ih =>
    intro rest hlen slice idx start scratch e h
    match rest with
    | [] =>
      rw [SliceRead.parse_str_bytes_go.eq_def] at h
      simp at h
      simp [← h]
    | b :: rest1 =>
      rw [SliceRead.parse_str_bytes_go.eq_def] at h
      by_cases hb39 : b = 39
      · by_cases hscr : scratch = []
        · simp [hb39, hscr] at h
        · simp [hb39, hscr] at h
      · by_cases hb33 : b = 33
        · match rest1 with
          | [] =>
            simp [hb39, hb33] at h
            simp [← h]
          | c :: rest2 =>
            by_cases hc : c = 33 ∨ c = 39
            · simp only [hb39, hb33, if_false, if_true, hc, if_pos rfl] at h
              exact ih rest2 (by simp at hlen; omega) slice (idx + 2) (idx + 2)
                (scratch ++ extractL slice start idx ++ [c]) e h
            · simp [hb39, hb33, hc] at h
              simp [← h]
        · simp only [hb39, hb33, if_false] at h
          exact ih rest1 (by simp at hlen; omega) slice (idx + 1) start scratch e h

/-- Every error the stream-source string scan loop constructs carries a
position. -/
lemma io_parse_str_go_pos :
    ∀ (n : Nat) (avail : List Nat), avail.length ≤ n →
    ∀ (startPos pos : Nat) (scratch : List Nat) (e : RError),
      IoRead.parse_str_go startPos avail pos scratch = .error e →
      e.position.isSome := by
  intro n
  induction n with
  | zero =>
    intro avail hlen startPos pos scratch e h
    have hnil : avail = [] := List.eq_nil_of_length_eq_zero (Nat.le_zero.mp hlen)
    subst hnil
    rw [IoRead.parse_str_go.eq_def] at h
    simp at h
    simp [← h]
  | succ n ih =>
    intro avail hlen startPos pos scratch e h
    match avail with
    | [] =>
      rw [IoRead.parse_str_go.eq_def] at h
      simp at h
      simp [← h]
    | b :: rest1 =>
      rw [IoRead.parse_str_go.eq_def] at h
      by_cases hb39 : b = 39
      · simp only [hb39, if_pos rfl] at h
        unfold io_finish_str at h
        cases hu : utf8ValidUpTo scratch with
        | some k =>
          rw [hu] at h
          simp at h
          simp [← h]
        | none =>
          rw [hu] at h
          simp at h
      · by_cases hb33 : b = 33
        · match rest1 with
          | [] =>
            simp [hb39, hb33] at h
            simp [← h]
          | c :: rest2 =>
            by_cases hc : c = 33 ∨ c = 39
            · simp only [hb39, hb33, if_false, if_true, hc, if_pos rfl] at h
              exact ih rest2 (by simp at hlen; omega) startPos (pos + 2)
                (scratch ++ [c]) e h
            · simp [hb39, hb33, hc] at h
              simp [← h]
        · simp only [hb39, hb33, if_false] at h
          exact ih rest1 (by simp at hlen; omega) startPos (pos + 1)
            (scratch ++ [b]) e h

/-! ## Claims -/

/-- C1: the claim says the value dispatcher parses a numeric literal
(minus or digit next) into an integer or float, with 12 decoding as
integer 12.  The code of src/de.rs line 77 is `todo!()`: evaluating the
dispatcher at the input 12 panics (unimplemented) rather than
producing any value. -/
theorem c1_number_literal_todo :
    from_slice_value 9 [49, 50] = .error DErr.todoPanic := rfl

/-- C2 counterexample: on the input bang-t, optional-value mode does
not delegate to standard value construction; it consumes the bang,
requires n, and fails with the bare error, even though standard value
construction on the same input succeeds with the boolean true. -/
theorem c2_counterexample :
    deserialize_option 9 ⟨[33, 116], 0⟩ = .error DErr.err ∧
    deserialize_any 9 ⟨[33, 116], 0⟩ = .ok (Value.bool true, ⟨[33, 116], 2⟩) :=
  ⟨rfl, rfl⟩

/-- C2 amended: a leading bang commits optional-value mode to the
no-value marker: bang then n consumes both and yields absence; bang
then anything else (or bang at end of input) is an error; only when the
first byte is not a bang (or the input is empty) does the dispatcher
delegate to standard value construction wrapped in presence. -/
theorem c2_option_amended (fuel : Nat) (s : SliceRead) :
    (s.peek = some 33 → s.discard.peek = some 110 →
        deserialize_option fuel s = .ok (none, s.discard.discard)) ∧
    (∀ c, s.peek = some 33 → s.discard.peek = some c → c ≠ 110 →
        deserialize_option fuel s = .error DErr.err) ∧
    (s.peek = some 33 → s.discard.peek = none →
        deserialize_option fuel s = .error DErr.err) ∧
    (∀ b, s.peek = some b → b ≠ 33 →
        deserialize_option fuel s =
          Except.map (fun vs => (some vs.1, vs.2)) (deserialize_any fuel s)) ∧
    (s.peek = none →
        deserialize_option fuel s =
          Except.map (fun vs => (some vs.1, vs.2)) (deserialize_any fuel s)) := by
  refine ⟨?_, ?_, ?_, ?_, ?_⟩
  · intro h1 h2
    unfold deserialize_option SliceRead.next
    rw [h1, h2]
    simp
  · intro c h1 h2 hc
    unfold deserialize_option SliceRead.next
    rw [h1, h2]
    simp [hc]
  · intro h1 h2
    unfold deserialize_option SliceRead.next
    rw [h1, h2]
    simp
  · intro b h1 hb
    unfold deserialize_option
    rw [h1]
    simp only [hb, if_false]
  · intro h1
    unfold deserialize_option
    rw [h1]

/-- C2 amended witness: bang then n decodes to absence with both bytes
consumed. -/
theorem c2_option_amended_witness :
    deserialize_option 1 ⟨[33, 110], 0⟩ = .ok (none, ⟨[33, 110], 2⟩) :=
  (c2_option_amended 1 ⟨[33, 110], 0⟩).1 rfl rfl

/-- C3: quoted-string scanning of the slice source agrees, for every
input byte sequence (opening quote already consumed), with the claim
transcription: stop at the first unescaped quote and consume it, map
bang-bang and bang-quote escapes to their literal byte, keep every
other byte, and fail with EofString when the input ends first; and the
documented example decodes to hello, quote rison quote bang. -/
theorem c3_quoted_string :
    (∀ l : List Nat,
        str_scan_view (SliceRead.parse_str_bytes ⟨l, 0⟩ []) = quoted_string_claim l) ∧
    from_slice_value 2 [39, 104, 101, 108, 108, 111, 44, 32, 33, 39, 114, 105,
        115, 111, 110, 33, 39, 33, 33, 39] =
      .ok (Value.str [104, 101, 108, 108, 111, 44, 32, 39, 114, 105, 115, 111,
        110, 39, 33]) := by
  refine ⟨?_, rfl⟩
  intro l
  have h := parse_str_go_spec l.length l (Nat.le_refl _) l 0 0 [] (by simp)
    (Nat.le_refl 0)
  unfold SliceRead.parse_str_bytes at h ⊢
  simp only [List.drop_zero] at h ⊢
  rw [h]
  cases hq : quoted_string_claim l with
  | error e => rfl
  | ok p =>
    cases p
    simp [extractL_self]

/-- C4: the claim says slice-source and stream-source decoding of the
same bytes produce identical results, with equal error codes.  On a
quoted string with an invalid escape (bang z), the slice source fails
with InvalidEscape and the stream source with InvalidMarker at the same
position, so the results differ. -/
theorem c4_source_divergence :
    SliceRead.parse_str ⟨[39, 33, 122, 39], 1⟩ [] =
      .error ⟨Code.InvalidEscape, some 3⟩ ∧
    IoRead.parse_str ⟨[33, 122, 39], 1⟩ [] =
      .error ⟨Code.InvalidMarker, some 3⟩ :=
  ⟨rfl, rfl⟩

/-- C5: the claim says every byte-source implementation reports a bad
string escape (bang followed by anything other than bang or quote) as
InvalidEscape.  The slice source does; the stream source reports
InvalidMarker for the same input at the same position. -/
theorem c5_escape_code_divergence :
    SliceRead.parse_str ⟨[39, 33, 120, 39], 1⟩ [] =
      .error ⟨Code.InvalidEscape, some 3⟩ ∧
    IoRead.parse_str ⟨[33, 120, 39], 1⟩ [] =
      .error ⟨Code.InvalidMarker, some 3⟩ :=
  ⟨rfl, rfl⟩

/-- C6 counterexample: the claim says a comma as first token of a
sequence fails with ExpectedListSepOrEnd and no value is parsed.  In
the code, a first-token comma is handed to value construction, which
scans an empty identifier: the accessor returns an element (the empty
string) and consumes nothing. -/
theorem c6_counterexample :
    next_element_seed 9 ⟨[44, 97, 41], 0⟩ true =
      .ok (some (Value.str []), ⟨[44, 97, 41], 0⟩) := rfl

/-- C6 amended: a comma as first token is not rejected: the sequence
accessor treats it as the start of a value and delegates to the
dispatcher (yielding an empty identifier string for a value target);
a token other than comma and close paren after the first element does
fail without parsing a value, but with the bare code-less dispatcher
error, since the errors src/de.rs constructs carry no code. -/
theorem c6_seq_access_amended (fuel : Nat) (s : SliceRead) :
    (s.peek = some 44 →
        next_element_seed (fuel + 1) s true =
          Except.map (fun vs => (some vs.1, vs.2)) (deserialize_any fuel s)) ∧
    (∀ b, s.peek = some b → b ≠ 44 → b ≠ 41 →
        next_element_seed (fuel + 1) s false = .error DErr.err) := by
  constructor
  · intro hpk
    rw [next_element_seed.eq_def]
    simp only [hpk]
    cases h : deserialize_any fuel s with
    | error e => rfl
    | ok p => cases p; rfl
  · intro b hpk hb44 hb41
    rw [next_element_seed.eq_def]
    simp [hpk, hb44, hb41]

/-- C6 amended witness: a stray byte after the first element fails with
the bare error. -/
theorem c6_seq_access_amended_witness :
    next_element_seed 1 ⟨[97], 0⟩ false = .error DErr.err :=
  (c6_seq_access_amended 0 ⟨[97], 0⟩).2 97 rfl (by decide) (by decide)

/-- C7 counterexample: the claim says a trailing byte after a complete
value fails with TrailingChars.  The decode of bang-f-f does fail, but
with the bare code-less `Error {}` of src/de.rs: the dispatcher error
type has no TrailingChars (or any other) code to attach. -/
theorem c7_counterexample :
    from_slice_bool [33, 102, 102] = .error DErr.err := rfl

/-- C7 amended: every top-level decode entry point constructs exactly
one value and then requires end of input: with a byte remaining the
decode fails with the bare code-less error, and with none it succeeds
with the decoded value. -/
theorem c7_top_level_amended :
    (∀ (fuel : Nat) (l : List Nat) (v : Value) (s : SliceRead),
        deserialize_any fuel ⟨l, 0⟩ = .ok (v, s) →
        (s.peek = none → from_slice_value fuel l = .ok v) ∧
        (∀ b, s.peek = some b → from_slice_value fuel l = .error DErr.err)) ∧
    (∀ (l : List Nat) (v : Bool) (s : SliceRead),
        deserialize_bool ⟨l, 0⟩ = .ok (v, s) →
        (s.peek = none → from_slice_bool l = .ok v) ∧
        (∀ b, s.peek = some b → from_slice_bool l = .error DErr.err)) := by
  constructor
  · intro fuel l v s h
    constructor
    · intro hpk
      unfold from_slice_value de_end
      rw [h]
      simp [hpk]
    · intro b hpk
      unfold from_slice_value de_end
      rw [h]
      simp [hpk]
  · intro l v s h
    constructor
    · intro hpk
      unfold from_slice_bool de_end
      rw [h]
      simp [hpk]
    · intro b hpk
      unfold from_slice_bool de_end
      rw [h]
      simp [hpk]

/-- C7 amended witness: bang-n alone decodes to the null value, while
bang-n followed by a stray byte fails with the bare error. -/
theorem c7_top_level_amended_witness :
    from_slice_value 1 [33, 110] = .ok Value.null ∧
    from_slice_value 1 [33, 110, 120] = .error DErr.err :=
  ⟨(c7_top_level_amended.1 1 [33, 110] Value.null ⟨[33, 110], 2⟩ rfl).1 rfl,
   (c7_top_level_amended.1 1 [33, 110, 120] Value.null ⟨[33, 110, 120], 2⟩ rfl).2
     120 rfl⟩

/-- C8: parse_ident_bytes always succeeds and returns exactly the
maximal run of consecutive bytes outside the identifier-terminator set
NOT_ID_CHARS, advancing the index by its length; in particular an input
ending mid-identifier is not an error. -/
theorem c8_identifier_scan (s : SliceRead) :
    SliceRead.parse_ident_bytes s =
      .ok ((s.slice.drop s.index).takeWhile (fun b => !(NOT_ID_CHARS.contains b)),
        s.index +
          ((s.slice.drop s.index).takeWhile
            (fun b => !(NOT_ID_CHARS.contains b))).length) := by
  unfold SliceRead.parse_ident_bytes
  rw [parse_ident_go_eq]

/-- C9: every error constructed by the string and identifier scans of
both byte sources carries a byte position, while the caller-supplied
custom (Data) error carries none. -/
theorem c9_error_positions :
    (∀ (s : SliceRead) (scratch : List Nat) (e : RError),
        SliceRead.parse_str s scratch = .error e → e.position.isSome) ∧
    (∀ (s : SliceRead) (e : RError),
        SliceRead.parse_ident s = .error e → e.position.isSome) ∧
    (∀ (s : IoRead) (scratch : List Nat) (e : RError),
        IoRead.parse_str s scratch = .error e → e.position.isSome) ∧
    (∀ (s : IoRead) (scratch : List Nat) (e : RError),
        IoRead.parse_ident s scratch = .error e → e.position.isSome) ∧
    (∀ msg, (customError msg).position = none) := by
  refine ⟨?_, ?_, ?_, ?_, fun _ => rfl⟩
  · intro s scratch e h
    unfold SliceRead.parse_str at h
    cases hsb : SliceRead.parse_str_bytes s scratch with
    | error e1 =>
      rw [hsb] at h
      simp at h
      subst h
      exact parse_str_go_pos (s.slice.drop s.index).length _ (Nat.le_refl _)
        s.slice s.index s.index scratch e1 hsb
    | ok p =>
      obtain ⟨r, stop⟩ := p
      rw [hsb] at h
      cases hu : utf8ValidUpTo r.bytes with
      | some k =>
        simp only [hu] at h
        simp at h
        simp [← h]
      | none =>
        simp only [hu] at h
        simp at h
  · intro s e h
    unfold SliceRead.parse_ident SliceRead.parse_ident_bytes at h
    rcases hgo : SliceRead.parse_ident_go (s.slice.drop s.index) s.index
      with ⟨bs, stop⟩
    rw [hgo] at h
    cases hu : utf8ValidUpTo bs with
    | some k =>
      simp only [hu] at h
      simp at h
      simp [← h]
    | none =>
      simp only [hu] at h
      simp at h
  · intro s scratch e h
    unfold IoRead.parse_str at h
    exact io_parse_str_go_pos s.rest.length s.rest (Nat.le_refl _) s.pos s.pos
      scratch e h
  · intro s scratch e h
    unfold IoRead.parse_ident at h
    rcases hgo : IoRead.parse_ident_go s.rest s.pos scratch with ⟨bs, s1⟩
    rw [hgo] at h
    cases hu : utf8ValidUpTo bs with
    | some k =>
      simp only [hu] at h
      simp at h
      simp [← h]
    | none =>
      simp only [hu] at h
      simp at h

/-- C9 witness: the unterminated empty string reports EofString at
position zero, which carries a position. -/
theorem c9_error_positions_witness :
    (RError.mk Code.EofString (some 0)).position.isSome :=
  c9_error_positions.1 ⟨[], 0⟩ [] ⟨Code.EofString, some 0⟩ rfl

/-- C10: identifier parsing at an identifier-terminator byte succeeds
with the empty identifier and consumes nothing; consequently the inputs
bang-paren-comma-a-paren and paren-colon-v-paren decode successfully,
to a sequence whose first element is the empty string and to an object
whose single key is the empty string. -/
theorem c10_empty_ident :
    (∀ (s : SliceRead) (b : Nat), s.peek = some b →
        NOT_ID_CHARS.contains b = true →
        SliceRead.parse_ident_bytes s = .ok ([], s.index)) ∧
    from_slice_value 9 [33, 40, 44, 97, 41] =
      .ok (Value.arr [Value.str [], Value.str [97]]) ∧
    from_slice_value 9 [40, 58, 118, 41] =
      .ok (Value.obj [([], Value.str [118])]) := by
  refine ⟨?_, rfl, rfl⟩
  intro s b hpk hb
  rw [SliceRead.peek, List.get?_eq_getElem?] at hpk
  have hlt : s.index < s.slice.length := by
    by_contra hge
    rw [List.getElem?_eq_none (by omega)] at hpk
    exact Option.noConfusion hpk
  have hd := List.drop_eq_getElem_cons hlt
  have hbb : s.slice[s.index] = b := by
    rw [List.getElem?_eq_getElem hlt] at hpk
    exact Option.some.inj hpk
  rw [hbb] at hd
  have hmem : b ∈ NOT_ID_CHARS := by simpa using hb
  unfold SliceRead.parse_ident_bytes
  rw [hd]
  simp [SliceRead.parse_ident_go, hmem]

/-- C10 witness: at a comma the identifier scan returns the empty
identifier without consuming input. -/
theorem c10_empty_ident_witness :
    SliceRead.parse_ident_bytes ⟨[44], 0⟩ = .ok ([], 0) :=
  c10_empty_ident.1 ⟨[44], 0⟩ 44 rfl rfl
